import Mathlib

/-!
Shallow embedding of the event-acquisition pipeline and tabbed display
state machine of go-gitfamous (package `cmd`).

Conventions of the embedding:
* Go machine integers (`int`, `int64`, `time.Duration`) are modelled as
  `Int`; overflow of the 64-bit arithmetic in the duration parser is made
  explicit with `wrap64`.
* Timestamps are `Int` nanoseconds; the repeated calls to `time.Now()`
  inside the fetch loop are modelled by a single fixed parameter `now`.
* The remote GitHub source is an opaque paginated data source: it is
  passed in as `pages : List (List RawEvent)`, where requesting page `i`
  returns the `i`-th element and `resp.NextPage == 0` exactly when the
  requested page is the last element.
* Fallible Go functions returning `(T, error)` become `Except String T`.
* `slices.Max`, which panics on an empty slice, becomes `listMax`
  returning `Option Nat` (`none` models the panic).
-/

namespace Gitfamous

/-- A raw event as delivered by the remote source
(`*github.Event` in `fetchEvents`, src/cmd/tui.go).  The payload is opaque;
`payloadDescr` abstracts the string `getEventDescription` derives from it,
and the actor/repo accessors are flattened into string fields. -/
structure RawEvent where
  createdAt : Int
  eventType : String
  repoName : String
  repoURL : String
  actorLogin : String
  actorAvatarURL : String
  payloadDescr : String
  deriving Repr, DecidableEq

/-- `Actor` from src/cmd/tui.go (fields `Login`, `AvatarURL`). -/
structure Actor where
  login : String
  avatarURL : String
  deriving Repr, DecidableEq

/-- `Repo` from src/cmd/tui.go (fields `Name`, `URL`). -/
structure Repo where
  name : String
  url : String
  deriving Repr, DecidableEq

/-- `eventItem` from src/cmd/tui.go (fields `Date`, `Type`, `Actor`,
`Repository`, `Description`; `Type` is renamed `eventType` as `Type` is a
Lean keyword). -/
structure EventItem where
  date : String
  eventType : String
  actor : Actor
  repository : Repo
  description : String
  deriving Repr, DecidableEq

/-- Abstraction of the external `humanize.Time` rendering used for the
`Date` column: an opaque injective rendering of the event age. -/
def humanizeTime (now t : Int) : String :=
  toString (now - t)

/-- The per-event normalization step of `fetchEvents`
(src/cmd/tui.go lines 244-253): build an `eventItem` from a raw event. -/
def toEventItem (now : Int) (e : RawEvent) : EventItem :=
  { date := humanizeTime now e.createdAt
    eventType := e.eventType
    actor := { login := e.actorLogin, avatarURL := e.actorAvatarURL }
    repository := { name := e.repoName, url := e.repoURL }
    description := e.payloadDescr }

/-- The inner loop of `fetchEvents` (src/cmd/tui.go lines 218-234):
scan the raw events of one page in order, carrying the accumulated
`allEvents` list and the `fetchedCount` counter.

* first `if`: `since > 0 && event.GetCreatedAt().Time.Before(now.Add(-since))`
  breaks out of the page scan;
* second `if`: a non-empty filter list skips (`continue`) events whose type
  is not a member, without touching the counter;
* otherwise the event is appended, the counter incremented, and
  `0 < count && fetchedCount >= count` breaks out of the page scan. -/
def scanPage (now since : Int) (filterTypes : List String) (count : Int) :
    List RawEvent → List RawEvent → Nat → List RawEvent × Nat
  | [], acc, fetched => (acc, fetched)
  | e :: rest, acc, fetched =>
    if 0 < since ∧ e.createdAt < now - since then
      (acc, fetched)
    else if filterTypes ≠ [] ∧ e.eventType ∉ filterTypes then
      scanPage now since filterTypes count rest acc fetched
    else
      if 0 < count ∧ count ≤ ((fetched + 1 : Nat) : Int) then
        (acc ++ [e], fetched + 1)
      else
        scanPage now since filterTypes count rest (acc ++ [e]) (fetched + 1)

/-- The outer pagination loop of `fetchEvents` (src/cmd/tui.go lines
213-240).  Each iteration requests one page (the counter `pagesReq` counts
requests issued); after scanning it, the loop stops when
`(0 < count && fetchedCount >= count) || resp.NextPage == 0` and otherwise
requests the next page.  `resp.NextPage == 0` is modelled by the tail of
the page list being empty.  Returns the accumulated raw events and the
number of pages requested. -/
def fetchLoop (now since : Int) (filterTypes : List String) (count : Int) :
    List (List RawEvent) → List RawEvent → Nat → Nat → List RawEvent × Nat
  | [], acc, _fetched, pagesReq => (acc, pagesReq)
  | page :: rest, acc, fetched, pagesReq =>
    let s := scanPage now since filterTypes count page acc fetched
    if (0 < count ∧ count ≤ (s.2 : Int)) ∨ rest = [] then
      (s.1, pagesReq + 1)
    else
      fetchLoop now since filterTypes count rest s.1 s.2 (pagesReq + 1)

/-- `fetchEvents` (src/cmd/tui.go lines 203-260): run the pagination loop,
map the accepted raw events to normalized `eventItem`s, and fail with the
`no events found` error when nothing remains.  Transport failures of the
remote source are outside this pure model (the source is given as data). -/
def fetchEvents (now : Int) (username : String) (count : Int) (since : Int)
    (filterTypes : List String) (pages : List (List RawEvent)) :
    Except String (List EventItem) :=
  let all := (fetchLoop now since filterTypes count pages [] 0 0).1
  let items := all.map (toEventItem now)
  if items.isEmpty then
    Except.error ("no events found for user " ++ username)
  else
    Except.ok items

/-- Whether an event is inside the lookback window: the negation of the
stop condition of the first `if` of the page scan. -/
def keepPred (now since : Int) (e : RawEvent) : Bool :=
  !decide (0 < since ∧ e.createdAt < now - since)

/-- Whether an event passes the type allow-list: the negation of the skip
condition of the second `if` of the page scan. -/
def typePred (filterTypes : List String) (e : RawEvent) : Bool :=
  decide (filterTypes = []) || decide (e.eventType ∈ filterTypes)

/-- Reference characterization (used only in theorem statements): the
events of one page that survive both filters when no cap truncation
occurs — the prefix of the page before the first out-of-window event,
filtered by the type allow-list. -/
def acceptedOfPage (now since : Int) (filterTypes : List String)
    (page : List RawEvent) : List RawEvent :=
  (page.takeWhile (keepPred now since)).filter (typePred filterTypes)

/-! ## Duration parser (`parseExtendedDuration`, src/cmd/tui.go lines 460-490) -/

/-- Go's `unicode.IsSpace`, restricted to the code points `strings.TrimSpace`
can actually strip (the Unicode White_Space set). -/
def goIsSpace (c : Char) : Bool :=
  c.toNat ∈ [9, 10, 11, 12, 13, 32, 0x85, 0xA0, 0x1680,
    0x2000, 0x2001, 0x2002, 0x2003, 0x2004, 0x2005, 0x2006, 0x2007,
    0x2008, 0x2009, 0x200A, 0x2028, 0x2029, 0x202F, 0x205F, 0x3000]

/-- `strings.TrimSpace` on a character list: drop White_Space characters
from both ends. -/
def trimSpaceL (l : List Char) : List Char :=
  ((l.dropWhile goIsSpace).reverse.dropWhile goIsSpace).reverse

/-- `strings.TrimSpace` on strings. -/
def trimSpace (s : String) : String :=
  String.mk (trimSpaceL s.data)

/-- The unit characters of the regular expression `^(\d+)([smhdw])$`. -/
def unitChars : List Char := ['s', 'm', 'h', 'd', 'w']

/-- Whether a (trimmed) character list fully matches the regular expression
`^(\d+)([smhdw])$` of `parseExtendedDuration`: a non-empty run of ASCII
digits followed by exactly one unit character. -/
def durMatch (t : List Char) : Bool :=
  match t.getLast? with
  | none => false
  | some u => decide (u ∈ unitChars) && !t.dropLast.isEmpty
      && t.dropLast.all Char.isDigit

/-- Decimal value of a digit string, as read by `strconv.Atoi`. -/
def digitsToNat (l : List Char) : Nat :=
  l.foldl (fun n c => 10 * n + (c.toNat - 48)) 0

/-- Largest value `strconv.Atoi` accepts on a 64-bit platform
(`math.MaxInt64`); larger digit strings fail with `ErrRange`. -/
def int64Max : Nat := 2 ^ 63 - 1

/-- Two's-complement wraparound of Go's 64-bit signed arithmetic. -/
def wrap64 (n : Int) : Int :=
  (n + 2 ^ 63) % 2 ^ 64 - 2 ^ 63

/-- Nanoseconds of one unit, from the `switch unit` of
`parseExtendedDuration` (`time.Second` … `time.Hour * 24 * 7`).  The
default branch is unreachable because the regex admits only `smhdw`. -/
def unitDuration (u : Char) : Int :=
  if u = 's' then 1000000000
  else if u = 'm' then 60 * 1000000000
  else if u = 'h' then 3600 * 1000000000
  else if u = 'd' then 24 * 3600 * 1000000000
  else if u = 'w' then 7 * 24 * 3600 * 1000000000
  else 0

/-- `parseExtendedDuration` (src/cmd/tui.go lines 460-490): trim the input,
match it in full against `^(\d+)([smhdw])$` (`InvalidFormat` on mismatch),
read the digits with `strconv.Atoi` (`InvalidMagnitude`, i.e. `ErrRange`,
when the value exceeds `math.MaxInt64`), and multiply by the unit's
duration in Go's wrapping 64-bit arithmetic. -/
def parseExtendedDuration (input : String) : Except String Int :=
  let t := trimSpaceL input.data
  if durMatch t then
    let v := digitsToNat t.dropLast
    if int64Max < v then
      Except.error "invalid number in duration: value out of range"
    else
      Except.ok (wrap64 ((v : Int) * unitDuration (t.getLast?.getD 's')))
  else
    Except.error ("invalid duration: " ++ input)

/-! ## Table layout (`model.Update` src/cmd/tui.go lines 98-153 and
`setupTableForTab` src/unnamed/part_001 lines 116-162) -/

/-- `slices.Max` on a list of naturals; `none` models the panic on an
empty slice. -/
def listMax : List Nat → Option Nat
  | [] => none
  | x :: xs => some (xs.foldl max x)

/-- The computed column widths and capped table height. -/
structure TableLayout where
  dateColWidth : Int
  repoColWidth : Int
  descColWidth : Int
  tableHeight : Nat
  deriving Repr, DecidableEq

/-- The layout computation of the single-account `model.Update`
(src/cmd/tui.go lines 98-153): column content maxima (Go `len`, i.e. UTF-8
byte length), fixed `spacing = 4` and `rightPadding = 12`, description
width floored at 20, height `len(rows)+1` capped at 30. -/
def updateLayout (width : Int) (events : List EventItem) : Option TableLayout :=
  let dateMax := listMax (events.map (fun e => e.date.utf8ByteSize))
  let repoMax := listMax (events.map (fun e => e.repository.name.utf8ByteSize))
  match dateMax, repoMax with
  | some dateWidth, some repoWidth =>
    let spacing : Int := 4
    let rightPadding : Int := spacing * 3
    let descWidth0 : Int := width - dateWidth - repoWidth - spacing - rightPadding
    let descWidth : Int := if descWidth0 < 20 then 20 else descWidth0
    let h0 : Nat := events.length + 1
    let tableHeight : Nat := if h0 > 30 then 30 else h0
    some { dateColWidth := (dateWidth : Int) + spacing
           repoColWidth := (repoWidth : Int) + spacing
           descColWidth := descWidth
           tableHeight := tableHeight }
  | _, _ => none

/-- The layout computation of the multi-account `setupTableForTab`
(src/unnamed/part_001 lines 116-162): as `updateLayout` but with 20 extra
columns reserved for the tab bar and the height capped at 25. -/
def setupTableLayout (width : Int) (events : List EventItem) : Option TableLayout :=
  let dateMax := listMax (events.map (fun e => e.date.utf8ByteSize))
  let repoMax := listMax (events.map (fun e => e.repository.name.utf8ByteSize))
  match dateMax, repoMax with
  | some dateWidth, some repoWidth =>
    let spacing : Int := 4
    let rightPadding : Int := spacing * 3
    let descWidth0 : Int := width - dateWidth - repoWidth - spacing - rightPadding - 20
    let descWidth : Int := if descWidth0 < 20 then 20 else descWidth0
    let h0 : Nat := events.length + 1
    let tableHeight : Nat := if h0 > 25 then 25 else h0
    some { dateColWidth := (dateWidth : Int) + spacing
           repoColWidth := (repoWidth : Int) + spacing
           descColWidth := descWidth
           tableHeight := tableHeight }
  | _, _ => none

/-! ## Multi-account model (src/unnamed/part_001) and credential
resolution (src/cmd/tui.go lines 500-511) -/

/-- The tab lifecycle states `TabLoading`, `TabLoaded`, `TabError`. -/
inductive TabState
  | TabLoading
  | TabLoaded
  | TabError
  deriving Repr, DecidableEq

/-- `userTab`: the per-account tab record used by src/unnamed/part_001
(fields reconstructed from their uses there: `username`, `apiToken`,
`state`, `count`, `since`, `filterTypes`, `events`, `err`, `table`).
The rendered `table.Model` is abstracted by its computed layout. -/
structure UserTab where
  username : String
  apiToken : String
  state : TabState
  count : Int
  since : Int
  filterTypes : List String
  events : List EventItem
  err : Option String
  table : Option TableLayout
  deriving Repr, DecidableEq

/-- `User` from src/cmd/config.go. -/
structure User where
  username : String
  token : String
  deriving Repr, DecidableEq

/-- `DefaultSettings` from src/cmd/config.go. -/
structure DefaultSettings where
  count : Int
  since : String
  filter : List String
  deriving Repr, DecidableEq

/-- `Config` from src/cmd/config.go. -/
structure Config where
  users : List User
  defaultSettings : DefaultSettings
  deriving Repr, DecidableEq

/-- `multiUserModel` (fields reconstructed from src/unnamed/part_001:
`tabs`, `activeTab`, `config`). -/
structure MultiUserModel where
  tabs : List UserTab
  activeTab : Nat
  config : Config
  deriving Repr, DecidableEq

/-- `fetchEventsForUserMsg` (src/unnamed/part_001): index-addressed fetch
completion carrying `(events, err)`, folded into an `Except`. -/
structure FetchForUserMsg where
  userIndex : Nat
  result : Except String (List EventItem)
  deriving Repr

/-- `initialMultiUserModel` (src/unnamed/part_001 lines 15-46).  The
process environment is passed as the values of `GITHUB_TOKEN` and
`GITHUB_API_TOKEN` (`""` meaning unset, as `os.Getenv` returns).  Per
account: the per-account token, falling back to `GITHUB_TOKEN` then
`GITHUB_API_TOKEN`; the tab starts in `TabLoading`; `since` is set only
when the default `since` string is non-empty and parses, and otherwise
stays at its zero value. -/
def initialMultiUserModel (config : Config) (envGithubToken envGithubApiToken : String) :
    MultiUserModel :=
  let tabs := config.users.map (fun user =>
    let token :=
      if user.token = "" then
        if envGithubToken = "" then envGithubApiToken else envGithubToken
      else user.token
    let sinceDur : Int :=
      if config.defaultSettings.since ≠ "" then
        match parseExtendedDuration config.defaultSettings.since with
        | Except.ok d => d
        | Except.error _ => 0
      else 0
    { username := user.username
      apiToken := token
      state := TabState.TabLoading
      count := config.defaultSettings.count
      since := sinceDur
      filterTypes := config.defaultSettings.filter
      events := []
      err := none
      table := none })
  { tabs := tabs, activeTab := 0, config := config }

/-- `multiUserModel.Init` (src/unnamed/part_001 lines 48-55): dispatch one
fetch per tab; modelled as the list of tab indices a fetch is issued for. -/
def multiInit (m : MultiUserModel) : List Nat :=
  List.range m.tabs.length

/-- `setupTableForTab` (src/unnamed/part_001 lines 116-162) on the tab
record: store the computed layout. -/
def setupTableForTab (width : Int) (tab : UserTab) : UserTab :=
  { tab with table := setupTableLayout width tab.events }

/-- The error branch of the completion handler: `tabs[i].err = msg.err;
tabs[i].state = TabError` (src/unnamed/part_001 lines 72-73). -/
def tabWithError (t : UserTab) (e : String) : UserTab :=
  { t with err := some e, state := TabState.TabError }

/-- The success branch of the completion handler before the table setup:
`tabs[i].events = msg.events; tabs[i].state = TabLoaded`
(src/unnamed/part_001 lines 75-76). -/
def tabLoadedWith (t : UserTab) (evs : List EventItem) : UserTab :=
  { t with events := evs, state := TabState.TabLoaded }

/-- The `fetchEventsForUserMsg` branch of `multiUserModel.Update`
(src/unnamed/part_001 lines 69-84): messages whose index is out of range
are dropped; otherwise an error marks the tab `TabError` and stores the
error, and a success stores the events, marks the tab `TabLoaded` and
materializes its table. -/
def multiUpdate (width : Int) (m : MultiUserModel) (msg : FetchForUserMsg) :
    MultiUserModel :=
  if h : msg.userIndex < m.tabs.length then
    match msg.result with
    | Except.error e =>
      { m with tabs := m.tabs.set msg.userIndex (tabWithError m.tabs[msg.userIndex] e) }
    | Except.ok evs =>
      { m with tabs := m.tabs.set msg.userIndex (setupTableForTab width (tabLoadedWith m.tabs[msg.userIndex] evs)) }
  else m

/-- The token-resolution and fail-fast check of the single-account
`rootCmd.Run` (src/cmd/tui.go lines 500-511): the `--api` flag value,
falling back to `GITHUB_TOKEN` then `GITHUB_API_TOKEN`; when all three are
empty the program logs and exits before any model is built
(result `none`). -/
def singleRootResolve (flagToken envGithubToken envGithubApiToken : String) :
    Option String :=
  let t :=
    if flagToken = "" then
      if envGithubToken = "" then envGithubApiToken else envGithubToken
    else flagToken
  if t = "" then none else some t

/-! ## Lemmas about the page scan -/

/-- Unfolding of `scanPage` on an empty page. -/
theorem scanPage_nil (now since : Int) (ft : List String) (count : Int)
    (acc : List RawEvent) (f : Nat) :
    scanPage now since ft count [] acc f = (acc, f) := rfl

/-- Unfolding of `scanPage` on a non-empty page. -/
theorem scanPage_cons (now since : Int) (ft : List String) (count : Int)
    (e : RawEvent) (rest acc : List RawEvent) (f : Nat) :
    scanPage now since ft count (e :: rest) acc f =
      if 0 < since ∧ e.createdAt < now - since then (acc, f)
      else if ft ≠ [] ∧ e.eventType ∉ ft then
        scanPage now since ft count rest acc f
      else if 0 < count ∧ count ≤ ((f + 1 : Nat) : Int) then
        (acc ++ [e], f + 1)
      else scanPage now since ft count rest (acc ++ [e]) (f + 1) := rfl

/-- The page scan only ever appends to the accumulator, and every appended
event is inside the lookback window and passes the type allow-list. -/
theorem scanPage_spec (now since : Int) (ft : List String) (count : Int) :
    ∀ (page acc : List RawEvent) (f : Nat),
      ∃ l, (scanPage now since ft count page acc f).1 = acc ++ l ∧
        ∀ x ∈ l, ¬(0 < since ∧ x.createdAt < now - since) ∧
          (ft = [] ∨ x.eventType ∈ ft) := by
  intro page
  induction page with
  | nil =>
    intro acc f
    exact ⟨[], by simp [scanPage_nil], by simp⟩
  | cons e rest ih =>
    intro acc f
    rw [scanPage_cons]
    by_cases h1 : 0 < since ∧ e.createdAt < now - since
    · rw [if_pos h1]
      refine ⟨[], by simp, by simp⟩
    · rw [if_neg h1]
      by_cases h2 : ft ≠ [] ∧ e.eventType ∉ ft
      · rw [if_pos h2]
        exact ih acc f
      · rw [if_neg h2]
        have hok : ft = [] ∨ e.eventType ∈ ft := by
          rcases not_and_or.mp h2 with h | h
          · exact Or.inl (not_not.mp h)
          · exact Or.inr (not_not.mp h)
        by_cases h3 : 0 < count ∧ count ≤ ((f + 1 : Nat) : Int)
        · rw [if_pos h3]
          refine ⟨[e], rfl, ?_⟩
          intro x hx
          rw [List.mem_singleton] at hx
          subst hx
          exact ⟨h1, hok⟩
        · rw [if_neg h3]
          obtain ⟨l, hl, hall⟩ := ih (acc ++ [e]) (f + 1)
          refine ⟨e :: l, ?_, ?_⟩
          · rw [hl, List.append_assoc]
            rfl
          · intro x hx
            rcases List.mem_cons.mp hx with hx | hx
            · subst hx; exact ⟨h1, hok⟩
            · exact hall x hx

/-- The counter of the page scan counts exactly the appended events:
the growth of the event list equals the growth of `fetchedCount`. -/
theorem scanPage_count (now since : Int) (ft : List String) (count : Int) :
    ∀ (page acc : List RawEvent) (f : Nat),
      (scanPage now since ft count page acc f).1.length + f =
        (scanPage now since ft count page acc f).2 + acc.length := by
  intro page
  induction page with
  | nil =>
    intro acc f
    rw [scanPage_nil]
    show acc.length + f = f + acc.length
    omega
  | cons e rest ih =>
    intro acc f
    rw [scanPage_cons]
    by_cases h1 : 0 < since ∧ e.createdAt < now - since
    · rw [if_pos h1]
      show acc.length + f = f + acc.length
      omega
    · rw [if_neg h1]
      by_cases h2 : ft ≠ [] ∧ e.eventType ∉ ft
      · rw [if_pos h2]; exact ih acc f
      · rw [if_neg h2]
        by_cases h3 : 0 < count ∧ count ≤ ((f + 1 : Nat) : Int)
        · rw [if_pos h3]
          show (acc ++ [e]).length + f = (f + 1) + acc.length
          simp only [List.length_append, List.length_cons, List.length_nil]
          omega
        · rw [if_neg h3]
          have := ih (acc ++ [e]) (f + 1)
          simp only [List.length_append, List.length_cons, List.length_nil] at this ⊢
          omega

/-- The page scan never drives the counter past the cap: entering a page
with a counter strictly below a positive `count` leaves it at most
`count`. -/
theorem scanPage_cap (now since : Int) (ft : List String) (count : Int)
    (hc : 0 < count) :
    ∀ (page acc : List RawEvent) (f : Nat), (f : Int) < count →
      ((scanPage now since ft count page acc f).2 : Int) ≤ count := by
  intro page
  induction page with
  | nil =>
    intro acc f hf
    rw [scanPage_nil]
    exact hf.le
  | cons e rest ih =>
    intro acc f hf
    rw [scanPage_cons]
    by_cases h1 : 0 < since ∧ e.createdAt < now - since
    · rw [if_pos h1]; exact hf.le
    · rw [if_neg h1]
      by_cases h2 : ft ≠ [] ∧ e.eventType ∉ ft
      · rw [if_pos h2]; exact ih acc f hf
      · rw [if_neg h2]
        by_cases h3 : 0 < count ∧ count ≤ ((f + 1 : Nat) : Int)
        · rw [if_pos h3]
          push_cast
          omega
        · rw [if_neg h3]
          have h4 : ((f + 1 : Nat) : Int) < count := by
            rcases not_and_or.mp h3 with h | h
            · exact absurd hc h
            · push_cast at h ⊢; omega
          exact ih (acc ++ [e]) (f + 1) h4

/-- With no cap in force (`count ≤ 0`), the page scan accepts exactly
`acceptedOfPage`: the type-filtered prefix of the page before its first
out-of-window event. -/
theorem scanPage_noCap (now since : Int) (ft : List String) (count : Int)
    (hc : count ≤ 0) :
    ∀ (page acc : List RawEvent) (f : Nat),
      scanPage now since ft count page acc f =
        (acc ++ acceptedOfPage now since ft page,
         f + (acceptedOfPage now since ft page).length) := by
  intro page
  induction page with
  | nil =>
    intro acc f
    rw [scanPage_nil]
    simp [acceptedOfPage]
  | cons e rest ih =>
    intro acc f
    rw [scanPage_cons]
    by_cases h1 : 0 < since ∧ e.createdAt < now - since
    · rw [if_pos h1]
      have hacc : acceptedOfPage now since ft (e :: rest) = [] := by
        have hstop : keepPred now since e = false := by
          simp [keepPred, h1]
        simp only [acceptedOfPage, List.takeWhile_cons, hstop]
        simp
      rw [hacc]
      simp
    · rw [if_neg h1]
      have hkeep : keepPred now since e = true := by
        simp [keepPred, h1]
      have h3 : ¬(0 < count ∧ count ≤ ((f + 1 : Nat) : Int)) := by
        intro h; omega
      by_cases h2 : ft ≠ [] ∧ e.eventType ∉ ft
      · rw [if_pos h2]
        have hdrop : typePred ft e = false := by
          simp [typePred, h2.1, h2.2]
        have hacc : acceptedOfPage now since ft (e :: rest) =
            acceptedOfPage now since ft rest := by
          simp only [acceptedOfPage, List.takeWhile_cons, hkeep, if_true,
            List.filter_cons, hdrop]
          simp
        rw [hacc]
        exact ih acc f
      · rw [if_neg h2, if_neg h3]
        have hok : typePred ft e = true := by
          rcases not_and_or.mp h2 with h | h
          · simp [typePred, not_not.mp h]
          · simp [typePred, not_not.mp h]
        have hacc : acceptedOfPage now since ft (e :: rest) =
            e :: acceptedOfPage now since ft rest := by
          simp only [acceptedOfPage, List.takeWhile_cons, hkeep, if_true,
            List.filter_cons, hok]
        rw [hacc, ih (acc ++ [e]) (f + 1)]
        simp only [Prod.mk.injEq, List.append_assoc, List.singleton_append,
          List.length_cons]
        refine ⟨trivial, by omega⟩

/-! ## Lemmas about the pagination loop -/

/-- Unfolding of `fetchLoop` when no page is left. -/
theorem fetchLoop_nil (now since : Int) (ft : List String) (count : Int)
    (acc : List RawEvent) (f pr : Nat) :
    fetchLoop now since ft count [] acc f pr = (acc, pr) := rfl

/-- Unfolding of `fetchLoop` on a page request. -/
theorem fetchLoop_cons (now since : Int) (ft : List String) (count : Int)
    (page : List RawEvent) (rest : List (List RawEvent))
    (acc : List RawEvent) (f pr : Nat) :
    fetchLoop now since ft count (page :: rest) acc f pr =
      if (0 < count ∧
            count ≤ ((scanPage now since ft count page acc f).2 : Int)) ∨ rest = []
      then ((scanPage now since ft count page acc f).1, pr + 1)
      else fetchLoop now since ft count rest
        (scanPage now since ft count page acc f).1
        (scanPage now since ft count page acc f).2 (pr + 1) := rfl

/-- The pagination loop only ever appends to the accumulator, and every
appended event is inside the lookback window and passes the type
allow-list. -/
theorem fetchLoop_spec (now since : Int) (ft : List String) (count : Int) :
    ∀ (pages : List (List RawEvent)) (acc : List RawEvent) (f pr : Nat),
      ∃ l, (fetchLoop now since ft count pages acc f pr).1 = acc ++ l ∧
        ∀ x ∈ l, ¬(0 < since ∧ x.createdAt < now - since) ∧
          (ft = [] ∨ x.eventType ∈ ft) := by
  intro pages
  induction pages with
  | nil =>
    intro acc f pr
    exact ⟨[], by simp [fetchLoop_nil], by simp⟩
  | cons page rest ih =>
    intro acc f pr
    rw [fetchLoop_cons]
    obtain ⟨l1, hl1, hall1⟩ := scanPage_spec now since ft count page acc f
    by_cases hstop : (0 < count ∧
        count ≤ ((scanPage now since ft count page acc f).2 : Int)) ∨ rest = []
    · rw [if_pos hstop]
      exact ⟨l1, hl1, hall1⟩
    · rw [if_neg hstop]
      obtain ⟨l2, hl2, hall2⟩ := ih (scanPage now since ft count page acc f).1
        (scanPage now since ft count page acc f).2 (pr + 1)
      refine ⟨l1 ++ l2, ?_, ?_⟩
      · rw [hl2, hl1, List.append_assoc]
      · intro x hx
        rcases List.mem_append.mp hx with h | h
        · exact hall1 x h
        · exact hall2 x h

/-- With a positive cap, the pagination loop never accumulates more than
`count` events (invariant: the accumulator length equals the counter and
stays strictly below the cap on entry). -/
theorem fetchLoop_cap (now since : Int) (ft : List String) (count : Int)
    (hc : 0 < count) :
    ∀ (pages : List (List RawEvent)) (acc : List RawEvent) (f pr : Nat),
      acc.length = f → (f : Int) < count →
      ((fetchLoop now since ft count pages acc f pr).1.length : Int) ≤ count := by
  intro pages
  induction pages with
  | nil =>
    intro acc f pr hlen hf
    rw [fetchLoop_nil]
    show (acc.length : Int) ≤ count
    omega
  | cons page rest ih =>
    intro acc f pr hlen hf
    rw [fetchLoop_cons]
    have hcap := scanPage_cap now since ft count hc page acc f hf
    have hcnt := scanPage_count now since ft count page acc f
    have hlen2 : (scanPage now since ft count page acc f).1.length =
        (scanPage now since ft count page acc f).2 := by omega
    by_cases hstop : (0 < count ∧
        count ≤ ((scanPage now since ft count page acc f).2 : Int)) ∨ rest = []
    · rw [if_pos hstop]
      show ((scanPage now since ft count page acc f).1.length : Int) ≤ count
      omega
    · rw [if_neg hstop]
      have h2 : ((scanPage now since ft count page acc f).2 : Int) < count := by
        rcases not_or.mp hstop with ⟨h, _⟩
        rcases not_and_or.mp h with h | h
        · exact absurd hc h
        · omega
      exact ih _ _ (pr + 1) hlen2 h2

/-- With no cap in force, the pagination loop visits every page and
returns exactly the concatenation of each page's accepted events, having
requested every page of the source. -/
theorem fetchLoop_noCap (now since : Int) (ft : List String) (count : Int)
    (hc : count ≤ 0) :
    ∀ (pages : List (List RawEvent)) (acc : List RawEvent) (f pr : Nat),
      fetchLoop now since ft count pages acc f pr =
        (acc ++ (pages.map (acceptedOfPage now since ft)).flatten,
         pr + pages.length) := by
  intro pages
  induction pages with
  | nil =>
    intro acc f pr
    rw [fetchLoop_nil]
    simp
  | cons page rest ih =>
    intro acc f pr
    rw [fetchLoop_cons]
    have hs := scanPage_noCap now since ft count hc page acc f
    have hnc : ¬(0 < count ∧
        count ≤ ((scanPage now since ft count page acc f).2 : Int)) :=
      fun h => absurd h.1 (by omega)
    by_cases hrest : rest = []
    · rw [if_pos (Or.inr hrest)]
      subst hrest
      rw [hs]
      simp
    · rw [if_neg (by simp [hnc, hrest])]
      rw [hs]
      rw [ih]
      simp only [Prod.mk.injEq, List.map_cons, List.flatten_cons, List.append_assoc,
        List.length_cons]
      exact ⟨trivial, by omega⟩

/-! ## Lemmas about `fetchEvents`, the layout and the multi-user update -/

/-- Unfolding of `fetchEvents`. -/
theorem fetchEvents_unfold (now : Int) (username : String) (count since : Int)
    (ft : List String) (pages : List (List RawEvent)) :
    fetchEvents now username count since ft pages =
      if (((fetchLoop now since ft count pages [] 0 0).1).map (toEventItem now)).isEmpty
      then Except.error ("no events found for user " ++ username)
      else Except.ok (((fetchLoop now since ft count pages [] 0 0).1).map (toEventItem now)) :=
  rfl

/-- A successful `fetchEvents` returns exactly the normalized accepted
events, and they are non-empty. -/
theorem fetchEvents_ok_eq (now : Int) (username : String) (count since : Int)
    (ft : List String) (pages : List (List RawEvent)) (evs : List EventItem)
    (h : fetchEvents now username count since ft pages = Except.ok evs) :
    evs = ((fetchLoop now since ft count pages [] 0 0).1).map (toEventItem now) ∧
      evs ≠ [] := by
  rw [fetchEvents_unfold] at h
  by_cases he : (((fetchLoop now since ft count pages [] 0 0).1).map (toEventItem now)).isEmpty
  · rw [if_pos he] at h
    exact absurd h (by simp)
  · rw [if_neg he] at h
    injection h with h
    subst h
    refine ⟨rfl, ?_⟩
    simpa [List.isEmpty_iff] using he

/-- `fetchEvents` fails when nothing survives the scan. -/
theorem fetchEvents_empty_error (now : Int) (username : String) (count since : Int)
    (ft : List String) (pages : List (List RawEvent))
    (h : (fetchLoop now since ft count pages [] 0 0).1 = []) :
    fetchEvents now username count since ft pages =
      Except.error ("no events found for user " ++ username) := by
  rw [fetchEvents_unfold, h]
  simp

/-- `listMax` is total on non-empty lists. -/
theorem listMax_of_ne_nil {l : List Nat} (h : l ≠ []) : ∃ n, listMax l = some n := by
  cases l with
  | nil => exact absurd rfl h
  | cons x xs => exact ⟨xs.foldl max x, rfl⟩

/-- The single-account layout is total on non-empty row sets. -/
theorem updateLayout_isSome (w : Int) (evs : List EventItem) (h : evs ≠ []) :
    (updateLayout w evs).isSome := by
  obtain ⟨d, hd⟩ := listMax_of_ne_nil (l := evs.map fun e => e.date.utf8ByteSize)
    (by simpa using h)
  obtain ⟨r, hr⟩ := listMax_of_ne_nil
    (l := evs.map fun e => e.repository.name.utf8ByteSize) (by simpa using h)
  simp only [updateLayout, hd, hr]
  rfl

/-- The multi-account layout is total on non-empty row sets. -/
theorem setupTableLayout_isSome (w : Int) (evs : List EventItem) (h : evs ≠ []) :
    (setupTableLayout w evs).isSome := by
  obtain ⟨d, hd⟩ := listMax_of_ne_nil (l := evs.map fun e => e.date.utf8ByteSize)
    (by simpa using h)
  obtain ⟨r, hr⟩ := listMax_of_ne_nil
    (l := evs.map fun e => e.repository.name.utf8ByteSize) (by simpa using h)
  simp only [setupTableLayout, hd, hr]
  rfl

/-- The description column of the single-account layout is never below
20. -/
theorem updateLayout_desc_min (w : Int) (evs : List EventItem) (L : TableLayout)
    (h : updateLayout w evs = some L) : 20 ≤ L.descColWidth := by
  simp only [updateLayout] at h
  split at h
  · injection h with h
    subst h
    simp only
    split
    · omega
    · omega
  · exact absurd h (by simp)

/-- The description column of the multi-account layout is never below
20. -/
theorem setupTableLayout_desc_min (w : Int) (evs : List EventItem) (L : TableLayout)
    (h : setupTableLayout w evs = some L) : 20 ≤ L.descColWidth := by
  simp only [setupTableLayout] at h
  split at h
  · injection h with h
    subst h
    simp only
    split
    · omega
    · omega
  · exact absurd h (by simp)

/-- Unfolding of `multiUpdate` for an out-of-range message. -/
theorem multiUpdate_out_of_range (w : Int) (m : MultiUserModel)
    (msg : FetchForUserMsg) (h : ¬ msg.userIndex < m.tabs.length) :
    multiUpdate w m msg = m := by
  simp only [multiUpdate, dif_neg h]

/-- Unfolding of `multiUpdate` for an in-range error message. -/
theorem multiUpdate_error (w : Int) (m : MultiUserModel) (i : Nat) (e : String)
    (h : i < m.tabs.length) :
    multiUpdate w m ⟨i, Except.error e⟩ =
      { m with tabs := m.tabs.set i (tabWithError m.tabs[i] e) } := by
  simp only [multiUpdate, dif_pos h]

/-- Unfolding of `multiUpdate` for an in-range success message. -/
theorem multiUpdate_ok (w : Int) (m : MultiUserModel) (i : Nat)
    (evs : List EventItem) (h : i < m.tabs.length) :
    multiUpdate w m ⟨i, Except.ok evs⟩ =
      { m with tabs := m.tabs.set i (setupTableForTab w (tabLoadedWith m.tabs[i] evs)) } := by
  simp only [multiUpdate, dif_pos h]

/-! ## Lemmas about trimming and the duration parser -/

/-- The head of a `dropWhile` residue fails the predicate. -/
theorem dropWhile_head_not (p : Char → Bool) :
    ∀ (l : List Char) (a : Char) (t : List Char),
      l.dropWhile p = a :: t → p a = false := by
  intro l
  induction l with
  | nil =>
    intro a t h
    simp at h
  | cons b l ih =>
    intro a t h
    rw [List.dropWhile_cons] at h
    by_cases hb : p b
    · rw [if_pos hb] at h
      exact ih a t h
    · rw [if_neg hb] at h
      cases h
      simpa using hb

/-- Trimming is idempotent. -/
theorem trimSpaceL_idem (l : List Char) :
    trimSpaceL (trimSpaceL l) = trimSpaceL l := by
  unfold trimSpaceL
  obtain ⟨s, hs⟩ := (List.dropWhile_suffix (l := (l.dropWhile goIsSpace).reverse)
    (p := goIsSpace))
  have hd : l.dropWhile goIsSpace =
      ((l.dropWhile goIsSpace).reverse.dropWhile goIsSpace).reverse ++ s.reverse := by
    have := congrArg List.reverse hs
    simpa [List.reverse_append] using this.symm
  have h1 : ((l.dropWhile goIsSpace).reverse.dropWhile goIsSpace).reverse.dropWhile
      goIsSpace = ((l.dropWhile goIsSpace).reverse.dropWhile goIsSpace).reverse := by
    cases hrv : ((l.dropWhile goIsSpace).reverse.dropWhile goIsSpace).reverse with
    | nil => simp
    | cons a t =>
      have hdl : l.dropWhile goIsSpace = a :: (t ++ s.reverse) := by
        rw [hd, hrv]
        simp
      have ha : goIsSpace a = false := dropWhile_head_not goIsSpace l a _ hdl
      rw [List.dropWhile_cons, if_neg (by simp [ha])]
  have h2 : ((l.dropWhile goIsSpace).reverse.dropWhile goIsSpace).dropWhile
      goIsSpace = (l.dropWhile goIsSpace).reverse.dropWhile goIsSpace := by
    cases hrc : (l.dropWhile goIsSpace).reverse.dropWhile goIsSpace with
    | nil => simp
    | cons a t =>
      have ha : goIsSpace a = false :=
        dropWhile_head_not goIsSpace (l.dropWhile goIsSpace).reverse a t hrc
      rw [List.dropWhile_cons, if_neg (by simp [ha])]
  rw [h1, List.reverse_reverse, h2]

/-- Trimming a string twice is trimming it once. -/
theorem trimSpace_data (s : String) :
    (trimSpace s).data = trimSpaceL s.data := rfl

/-- Unfolding of `parseExtendedDuration`. -/
theorem parseExtendedDuration_unfold (input : String) :
    parseExtendedDuration input =
      if durMatch (trimSpaceL input.data) then
        if int64Max < digitsToNat (trimSpaceL input.data).dropLast then
          Except.error "invalid number in duration: value out of range"
        else
          Except.ok (wrap64 ((digitsToNat (trimSpaceL input.data).dropLast : Int) *
            unitDuration ((trimSpaceL input.data).getLast?.getD 's')))
      else Except.error ("invalid duration: " ++ input) := rfl

/-! ## Concrete fixtures used by counterexamples and witnesses -/

/-- A raw event far older than the cutoff of the concrete runs below. -/
def evOld : RawEvent :=
  { createdAt := 5, eventType := "PushEvent", repoName := "r", repoURL := "",
    actorLogin := "blacktop", actorAvatarURL := "", payloadDescr := "pushed" }

/-- A raw event inside the window of the concrete runs below. -/
def evNew : RawEvent :=
  { evOld with createdAt := 95 }

/-- A raw event sitting exactly on the cutoff `now - since = 10 - 5`. -/
def evBoundary : RawEvent :=
  { evOld with createdAt := 5 }

/-- A concrete configuration with one account that has no per-account
credential. -/
def cfgFix : Config :=
  { users := [{ username := "alice", token := "" }],
    defaultSettings := { count := 0, since := "", filter := [] } }

/-- A concrete tab still loading. -/
def tabLoadingFix : UserTab :=
  { username := "alice", apiToken := "tok", state := TabState.TabLoading,
    count := 0, since := 0, filterTypes := [], events := [], err := none,
    table := none }

/-- A concrete tab already loaded. -/
def tabLoadedFix : UserTab :=
  { tabLoadingFix with state := TabState.TabLoaded, events := [toEventItem 100 evNew] }

/-- A concrete one-tab model still loading. -/
def mLoading : MultiUserModel :=
  { tabs := [tabLoadingFix], activeTab := 0, config := cfgFix }

/-- A concrete one-tab model already loaded. -/
def mLoaded : MultiUserModel :=
  { tabs := [tabLoadedFix], activeTab := 0, config := cfgFix }

/-! ## Claim theorems -/

/-- Claim C1, counterexample: with `lookback > 0` and a first-page event
older than `now - lookback`, the scan of page 1 stops at once and accepts
nothing, yet the loop still requests page 2 — the stop is not a hard
short-circuit across pages. -/
theorem fetchLoop_requests_next_page_after_cutoff_cx :
    ((0 : Int) < 10 ∧ evOld.createdAt < (100 : Int) - 10) ∧
    scanPage 100 10 [] 0 [evOld] [] 0 = ([], 0) ∧
    (fetchLoop 100 10 [] 0 [[evOld], [evOld]] [] 0 0).2 = 2 := by
  refine ⟨by decide, rfl, rfl⟩

/-- Claim C1, amended: encountering a raw event older than `now − lookback`
stops the scan of the current page only — no later event of that page is
examined or appended — while the pagination loop still requests the next
page whenever one exists and the cap has not been reached. -/
theorem scanPage_cutoff_stops_current_page_only
    (now since : Int) (ft : List String) (count : Int) :
    (∀ (pre : List RawEvent) (e : RawEvent) (suf acc : List RawEvent) (f : Nat),
      0 < since → e.createdAt < now - since →
      (∀ x ∈ pre, ¬ x.createdAt < now - since) →
      scanPage now since ft count (pre ++ e :: suf) acc f =
        scanPage now since ft count pre acc f) ∧
    (∀ (page : List RawEvent) (rest : List (List RawEvent))
        (acc : List RawEvent) (f pr : Nat), rest ≠ [] →
      ¬(0 < count ∧ count ≤ ((scanPage now since ft count page acc f).2 : Int)) →
      fetchLoop now since ft count (page :: rest) acc f pr =
        fetchLoop now since ft count rest (scanPage now since ft count page acc f).1
          (scanPage now since ft count page acc f).2 (pr + 1)) := by
  constructor
  · intro pre
    induction pre with
    | nil =>
      intro e suf acc f hs he _
      rw [List.nil_append, scanPage_cons, if_pos ⟨hs, he⟩, scanPage_nil]
    | cons p ps ih =>
      intro e suf acc f hs he hpre
      have hp : ¬(0 < since ∧ p.createdAt < now - since) :=
        fun hx => hpre p (List.mem_cons_self p ps) hx.2
      rw [List.cons_append, scanPage_cons, scanPage_cons, if_neg hp, if_neg hp]
      have hrest : ∀ x ∈ ps, ¬ x.createdAt < now - since :=
        fun x hx => hpre x (List.mem_cons_of_mem p hx)
      by_cases h2 : ft ≠ [] ∧ p.eventType ∉ ft
      · rw [if_pos h2, if_pos h2]
        exact ih e suf acc f hs he hrest
      · rw [if_neg h2, if_neg h2]
        by_cases h3 : 0 < count ∧ count ≤ ((f + 1 : Nat) : Int)
        · rw [if_pos h3, if_pos h3]
        · rw [if_neg h3, if_neg h3]
          exact ih e suf (acc ++ [p]) (f + 1) hs he hrest
  · intro page rest acc f pr hrest hcap
    rw [fetchLoop_cons, if_neg (not_or.mpr ⟨hcap, hrest⟩)]

/-- Claim C1, witness for the amended theorem at a concrete input. -/
theorem scanPage_cutoff_stops_current_page_only_witness :
    scanPage 100 10 [] 0 ([] ++ evOld :: []) [] 0 = scanPage 100 10 [] 0 [] [] 0 ∧
    fetchLoop 100 10 [] 0 [[evOld], [evOld]] [] 0 0 =
      fetchLoop 100 10 [] 0 [[evOld]] (scanPage 100 10 [] 0 [evOld] [] 0).1
        (scanPage 100 10 [] 0 [evOld] [] 0).2 1 := by
  constructor
  · exact (scanPage_cutoff_stops_current_page_only 100 10 [] 0).1 [] evOld [] [] 0
      (by decide) (by decide) (by simp)
  · exact (scanPage_cutoff_stops_current_page_only 100 10 [] 0).2 [evOld] [[evOld]]
      [] 0 0 (by simp) (by decide)

/-- Claim C10: the lookback cutoff is exclusive at the boundary — a raw
event strictly older than `now − lookback` stops the page scan, while an
event whose timestamp equals `now − lookback` exactly is not treated as
out of window and (when it passes the type filter) is accepted into the
result. -/
theorem lookback_cutoff_exclusive
    (now since : Int) (ft : List String) (count : Int) (e : RawEvent)
    (rest acc : List RawEvent) (f : Nat) (hs : 0 < since) :
    (e.createdAt < now - since →
      scanPage now since ft count (e :: rest) acc f = (acc, f)) ∧
    (e.createdAt = now - since → (ft = [] ∨ e.eventType ∈ ft) →
      e ∈ (scanPage now since ft count (e :: rest) acc f).1) := by
  constructor
  · intro he
    rw [scanPage_cons, if_pos ⟨hs, he⟩]
  · intro he hok
    have h1 : ¬(0 < since ∧ e.createdAt < now - since) := by
      rintro ⟨-, hlt⟩
      rw [he] at hlt
      exact lt_irrefl _ hlt
    have h2 : ¬(ft ≠ [] ∧ e.eventType ∉ ft) := by
      rcases hok with h | h
      · exact fun hc => hc.1 h
      · exact fun hc => hc.2 h
    rw [scanPage_cons, if_neg h1, if_neg h2]
    by_cases h3 : 0 < count ∧ count ≤ ((f + 1 : Nat) : Int)
    · rw [if_pos h3]
      show e ∈ acc ++ [e]
      simp
    · rw [if_neg h3]
      obtain ⟨l, hl, -⟩ := scanPage_spec now since ft count rest (acc ++ [e]) (f + 1)
      rw [hl]
      simp

/-- Claim C10, witness at the exact boundary timestamp `5 = 10 - 5`. -/
theorem lookback_cutoff_exclusive_witness :
    evBoundary ∈ (scanPage 10 5 [] 0 [evBoundary] [] 0).1 :=
  (lookback_cutoff_exclusive 10 5 [] 0 evBoundary [] [] 0 (by decide)).2
    (by decide) (Or.inl rfl)

/-- Claim C5: every event of a successful fetch passes both filters — when
`lookback > 0` its raw timestamp is at least `now − lookback`, and when the
allow-list is non-empty its type tag is a member. -/
theorem fetchEvents_result_passes_filters
    (now : Int) (username : String) (count since : Int) (ft : List String)
    (pages : List (List RawEvent)) (evs : List EventItem)
    (h : fetchEvents now username count since ft pages = Except.ok evs) :
    ∀ it ∈ evs, ∃ e : RawEvent, it = toEventItem now e ∧
      (0 < since → now - since ≤ e.createdAt) ∧
      (ft ≠ [] → e.eventType ∈ ft) := by
  obtain ⟨heq, -⟩ := fetchEvents_ok_eq now username count since ft pages evs h
  subst heq
  intro it hit
  obtain ⟨e, he, rfl⟩ := List.mem_map.mp hit
  obtain ⟨l, hl, hall⟩ := fetchLoop_spec now since ft count pages [] 0 0
  rw [hl, List.nil_append] at he
  obtain ⟨hw, hty⟩ := hall e he
  refine ⟨e, rfl, ?_, ?_⟩
  · intro hs
    have hnl : ¬ e.createdAt < now - since := fun hx => hw ⟨hs, hx⟩
    omega
  · intro hft
    rcases hty with hemp | hmem
    · exact absurd hemp hft
    · exact hmem

/-- Claim C5, witness at a concrete in-window, type-matching fetch. -/
theorem fetchEvents_result_passes_filters_witness :
    ∃ e : RawEvent, toEventItem 100 evNew = toEventItem 100 e ∧
      ((0 : Int) < 10 → (100 : Int) - 10 ≤ e.createdAt) ∧
      ((["PushEvent"] : List String) ≠ [] → e.eventType ∈ ["PushEvent"]) :=
  fetchEvents_result_passes_filters 100 "u" 0 10 ["PushEvent"] [[evNew]]
    [toEventItem 100 evNew] rfl (toEventItem 100 evNew) (by simp)

/-- Claim C4: with a positive cap the number of accepted events never
exceeds it; the counter counts exactly the appended events, so events
skipped by the type filter never count toward the cap; and with `cap == 0`
no truncation occurs — the loop returns every accepted event of every
page. -/
theorem fetchEvents_cap_respected
    (now : Int) (username : String) (count since : Int) (ft : List String)
    (pages : List (List RawEvent)) :
    (0 < count → ∀ evs, fetchEvents now username count since ft pages = Except.ok evs →
      (evs.length : Int) ≤ count) ∧
    (∀ (page acc : List RawEvent) (f : Nat),
      (scanPage now since ft count page acc f).1.length + f =
        (scanPage now since ft count page acc f).2 + acc.length) ∧
    (count = 0 →
      (fetchLoop now since ft count pages [] 0 0).1 =
        (pages.map (acceptedOfPage now since ft)).flatten) := by
  refine ⟨?_, scanPage_count now since ft count, ?_⟩
  · intro hc evs h
    obtain ⟨heq, -⟩ := fetchEvents_ok_eq now username count since ft pages evs h
    subst heq
    rw [List.length_map]
    exact fetchLoop_cap now since ft count hc pages [] 0 0 rfl (by exact_mod_cast hc)
  · intro hc
    subst hc
    rw [fetchLoop_noCap now since ft 0 (le_refl 0) pages [] 0 0]
    simp

/-- Claim C4, witness: a capped fetch, the counter identity, and an
uncapped fetch, each at a concrete input. -/
theorem fetchEvents_cap_respected_witness :
    (([toEventItem 100 evNew] : List EventItem).length : Int) ≤ 1 ∧
    (scanPage 100 0 [] 1 [evNew] [] 0).1.length + 0 =
      (scanPage 100 0 [] 1 [evNew] [] 0).2 + ([] : List RawEvent).length ∧
    (fetchLoop 100 0 [] 0 [[evNew]] [] 0 0).1 =
      ([[evNew]].map (acceptedOfPage 100 0 [])).flatten := by
  refine ⟨?_, ?_, ?_⟩
  · exact (fetchEvents_cap_respected 100 "u" 1 0 [] [[evNew, evNew]]).1 (by decide)
      [toEventItem 100 evNew] rfl
  · exact (fetchEvents_cap_respected 100 "u" 1 0 [] [[evNew]]).2.1 [evNew] [] 0
  · exact (fetchEvents_cap_respected 100 "u" 0 0 [] [[evNew]]).2.2 rfl

/-- Claim C9: `fetchEvents` succeeds only with a non-empty event list, so
the table-layout computation — whose `slices.Max` panics on an empty
column-width list, modelled by `none` — is total on every row set a
successful fetch can deliver, in both display modes. -/
theorem fetchEvents_ok_nonempty_layout_total
    (now : Int) (username : String) (count since : Int) (ft : List String)
    (pages : List (List RawEvent)) (evs : List EventItem)
    (h : fetchEvents now username count since ft pages = Except.ok evs) :
    evs ≠ [] ∧ ∀ w : Int, (updateLayout w evs).isSome ∧ (setupTableLayout w evs).isSome := by
  obtain ⟨-, hne⟩ := fetchEvents_ok_eq now username count since ft pages evs h
  exact ⟨hne, fun w => ⟨updateLayout_isSome w evs hne, setupTableLayout_isSome w evs hne⟩⟩

/-- Claim C9, witness at a concrete successful fetch. -/
theorem fetchEvents_ok_nonempty_layout_total_witness :
    ([toEventItem 100 evNew] : List EventItem) ≠ [] ∧
    ∀ w : Int, (updateLayout w [toEventItem 100 evNew]).isSome ∧
      (setupTableLayout w [toEventItem 100 evNew]).isSome :=
  fetchEvents_ok_nonempty_layout_total 100 "u" 0 0 [] [[evNew]]
    [toEventItem 100 evNew] rfl

/-- Claim C8: the layout computation is a pure function of the terminal
width and row set — recomputing with identical inputs yields identical
column widths and capped height — and the description column is never
narrower than 20, in both display modes. -/
theorem layout_deterministic_min_desc (w : Int) (rows : List EventItem) :
    (updateLayout w rows = updateLayout w rows ∧
      setupTableLayout w rows = setupTableLayout w rows) ∧
    (∀ L, updateLayout w rows = some L → 20 ≤ L.descColWidth) ∧
    (∀ L, setupTableLayout w rows = some L → 20 ≤ L.descColWidth) :=
  ⟨⟨rfl, rfl⟩, fun L h => updateLayout_desc_min w rows L h,
    fun L h => setupTableLayout_desc_min w rows L h⟩

/-- Claim C8, witness at a concrete width and row set. -/
theorem layout_deterministic_min_desc_witness :
    updateLayout 80 [toEventItem 100 evNew] = updateLayout 80 [toEventItem 100 evNew] ∧
    20 ≤ (({ dateColWidth := 5, repoColWidth := 5, descColWidth := 62, tableHeight := 2 } : TableLayout)).descColWidth := by
  refine ⟨(layout_deterministic_min_desc 80 [toEventItem 100 evNew]).1.1, ?_⟩
  exact (layout_deterministic_min_desc 80 [toEventItem 100 evNew]).2.1
    { dateColWidth := 5, repoColWidth := 5, descColWidth := 62, tableHeight := 2 } rfl

/-- Claim C2, counterexample: a multi-account fetch whose every raw event
is removed by the type filter yields the `no events found` error, and the
completion message drives the tab to `TabError`, not to a `TabLoaded` tab
with zero rows. -/
theorem multiUpdate_empty_fetch_error_tab_cx :
    fetchEvents 100 "alice" 0 0 ["WatchEvent"] [[evOld]] =
      Except.error "no events found for user alice" ∧
    ((multiUpdate 80 mLoading
        ⟨0, fetchEvents 100 "alice" 0 0 ["WatchEvent"] [[evOld]]⟩).tabs[0]?.map
      (fun t => t.state)) = some TabState.TabError ∧
    TabState.TabError ≠ TabState.TabLoaded := by
  refine ⟨rfl, rfl, by decide⟩

/-- Claim C2, amended: `fetchEvents` reports the `NoResults` error whenever
zero events remain after filtering, in multi-account mode exactly as in
single-account mode, and the completion handler therefore marks the tab
`TabError` (the empty-state `Loaded` rendering is unreachable from a fetch
completion). -/
theorem fetchEvents_empty_is_error_in_multi_mode
    (now : Int) (username : String) (count since : Int) (ft : List String)
    (pages : List (List RawEvent)) (w : Int) (m : MultiUserModel) (i : Nat)
    (hi : i < m.tabs.length)
    (hempty : (fetchLoop now since ft count pages [] 0 0).1 = []) :
    fetchEvents now username count since ft pages =
      Except.error ("no events found for user " ++ username) ∧
    ((multiUpdate w m ⟨i, fetchEvents now username count since ft pages⟩).tabs[i]?.map
      (fun t => t.state)) = some TabState.TabError := by
  have herr := fetchEvents_empty_error now username count since ft pages hempty
  refine ⟨herr, ?_⟩
  rw [herr, multiUpdate_error w m i _ hi]
  rw [show ({ m with tabs := m.tabs.set i (tabWithError m.tabs[i] ("no events found for user " ++ username)) } : MultiUserModel).tabs = m.tabs.set i (tabWithError m.tabs[i] ("no events found for user " ++ username)) from rfl]
  rw [List.getElem?_set_self (by simpa using hi)]
  rfl

/-- Claim C2, witness for the amended theorem at a concrete input. -/
theorem fetchEvents_empty_is_error_in_multi_mode_witness :
    fetchEvents 100 "alice" 0 0 ["WatchEvent"] [[evOld]] =
      Except.error "no events found for user alice" ∧
    ((multiUpdate 80 mLoading
        ⟨0, fetchEvents 100 "alice" 0 0 ["WatchEvent"] [[evOld]]⟩).tabs[0]?.map
      (fun t => t.state)) = some TabState.TabError :=
  fetchEvents_empty_is_error_in_multi_mode 100 "alice" 0 0 ["WatchEvent"]
    [[evOld]] 80 mLoading 0 (by decide) rfl

/-- Claim C3, counterexample: a tab already `TabLoaded` is overwritten by a
further completion message for the same index — a late error message flips
it to `TabError`, so `Loaded` is not terminal in the update function. -/
theorem multiUpdate_overwrites_loaded_tab_cx :
    (mLoaded.tabs[0]?.map fun t => t.state) = some TabState.TabLoaded ∧
    ((multiUpdate 80 mLoaded ⟨0, Except.error "late"⟩).tabs[0]?.map
      fun t => t.state) = some TabState.TabError := by
  exact ⟨rfl, rfl⟩

/-- Claim C3, amended: the completion handler applies every message whose
index is in range unconditionally — the addressed tab's state becomes
`TabLoaded` on a success and `TabError` on a failure regardless of its
current state — and only messages with out-of-range indices leave the model
unchanged.  (Loaded and Error are terminal in a run only because exactly
one completion message is ever dispatched per tab.) -/
theorem multiUpdate_applies_any_in_range_message
    (w : Int) (m : MultiUserModel) (msg : FetchForUserMsg) :
    (msg.userIndex < m.tabs.length →
      ((multiUpdate w m msg).tabs[msg.userIndex]?.map fun t => t.state) =
        some (match msg.result with
          | Except.ok _ => TabState.TabLoaded
          | Except.error _ => TabState.TabError)) ∧
    (¬ msg.userIndex < m.tabs.length → multiUpdate w m msg = m) := by
  obtain ⟨i, res⟩ := msg
  constructor
  · intro hi
    cases res with
    | error e =>
      rw [multiUpdate_error w m i e hi]
      rw [show ({ m with tabs := m.tabs.set i (tabWithError m.tabs[i] e) } : MultiUserModel).tabs = m.tabs.set i (tabWithError m.tabs[i] e) from rfl]
      rw [List.getElem?_set_self (by simpa using hi)]
      rfl
    | ok evs =>
      rw [multiUpdate_ok w m i evs hi]
      rw [show ({ m with tabs := m.tabs.set i (setupTableForTab w (tabLoadedWith m.tabs[i] evs)) } : MultiUserModel).tabs = m.tabs.set i (setupTableForTab w (tabLoadedWith m.tabs[i] evs)) from rfl]
      rw [List.getElem?_set_self (by simpa using hi)]
      rfl
  · intro hi
    exact multiUpdate_out_of_range w m ⟨i, res⟩ hi

/-- Claim C3, witness for the amended theorem at concrete inputs. -/
theorem multiUpdate_applies_any_in_range_message_witness :
    ((multiUpdate 80 mLoaded ⟨0, Except.error "late"⟩).tabs[0]?.map
      fun t => t.state) = some TabState.TabError ∧
    multiUpdate 80 mLoaded ⟨7, Except.error "late"⟩ = mLoaded := by
  constructor
  · exact (multiUpdate_applies_any_in_range_message 80 mLoaded
      ⟨0, Except.error "late"⟩).1 (by decide)
  · exact (multiUpdate_applies_any_in_range_message 80 mLoaded
      ⟨7, Except.error "late"⟩).2 (by decide)

/-- Claim C6, counterexample: in multi-account mode an account with no
per-account credential and both environment variables unset is not fatal —
the model is still built, the tab carries an empty credential in the
`Loading` state, and `Init` dispatches a fetch for it. -/
theorem initialMultiUserModel_missing_credential_not_fatal_cx :
    ((initialMultiUserModel cfgFix "" "").tabs[0]?.map fun t => t.apiToken) =
      some "" ∧
    ((initialMultiUserModel cfgFix "" "").tabs[0]?.map fun t => t.state) =
      some TabState.TabLoading ∧
    multiInit (initialMultiUserModel cfgFix "" "") = [0] :=
  ⟨rfl, rfl, rfl⟩

/-- Claim C6, amended: credential resolution checks the per-account (or
flag) credential, then `GITHUB_TOKEN`, then `GITHUB_API_TOKEN`, in that
fixed order.  In single-account mode an empty resolution is fatal before
the model is built; in multi-account mode every configured account gets a
tab and a dispatched fetch regardless of whether its resolved credential
is empty. -/
theorem credential_resolution_order (flag g a : String) :
    (singleRootResolve flag g a = none ↔ flag = "" ∧ g = "" ∧ a = "") ∧
    (flag ≠ "" → singleRootResolve flag g a = some flag) ∧
    (flag = "" → g ≠ "" → singleRootResolve flag g a = some g) ∧
    (flag = "" → g = "" → a ≠ "" → singleRootResolve flag g a = some a) ∧
    (∀ cfg : Config,
      (initialMultiUserModel cfg g a).tabs.length = cfg.users.length ∧
      multiInit (initialMultiUserModel cfg g a) = List.range cfg.users.length) := by
  refine ⟨?_, ?_, ?_, ?_, ?_⟩
  · by_cases hf : flag = "" <;> by_cases hg : g = "" <;> by_cases ha : a = "" <;>
      simp [singleRootResolve, hf, hg, ha]
  · intro hf
    simp [singleRootResolve, hf]
  · intro hf hg
    simp [singleRootResolve, hf, hg]
  · intro hf hg ha
    simp [singleRootResolve, hf, hg, ha]
  · intro cfg
    constructor
    · simp [initialMultiUserModel]
    · simp [multiInit, initialMultiUserModel]

/-- Claim C6, witness for the amended theorem at concrete inputs. -/
theorem credential_resolution_order_witness :
    (singleRootResolve "" "" "" = none ↔ ("" : String) = "" ∧ ("" : String) = "" ∧ ("" : String) = "") ∧
    singleRootResolve "" "envtok" "" = some "envtok" ∧
    (initialMultiUserModel cfgFix "" "").tabs.length = cfgFix.users.length := by
  refine ⟨(credential_resolution_order "" "" "").1, ?_, ?_⟩
  · exact (credential_resolution_order "" "envtok" "").2.2.1 rfl (by decide)
  · exact ((credential_resolution_order "" "" "").2.2.2.2 cfgFix).1

/-- Claim C7, counterexample: `"9223372036854775808s"` fully matches
`<integer><unit>` yet the parser fails (`strconv.Atoi` range error at
`2^63`), so matching the pattern is not sufficient for success; and for
`" x"` the two invalid-format errors of `parse(s)` and `parse(trim(s))`
differ because the error message echoes the untrimmed input. -/
theorem parseExtendedDuration_overflow_cx :
    (durMatch (trimSpaceL ("9223372036854775808s").data) = true ∧
      parseExtendedDuration "9223372036854775808s" =
        Except.error "invalid number in duration: value out of range") ∧
    parseExtendedDuration " x" ≠ parseExtendedDuration (trimSpace " x") := by
  refine ⟨⟨rfl, rfl⟩, ?_⟩
  intro h
  rw [show parseExtendedDuration " x" = Except.error "invalid duration:  x" from rfl,
    show parseExtendedDuration (trimSpace " x") =
      Except.error "invalid duration: x" from rfl] at h
  injection h with h
  exact absurd h (by decide)

/-- Claim C7, amended: the parser fails with the invalid-format error
exactly when the trimmed input does not fully match `<integer><unit>` with
unit in `{s,m,h,d,w}` (no partial parsing); on a full match it succeeds iff
the integer is at most `2^63 − 1`, returning the integer times the unit's
duration in wrapping 64-bit arithmetic, and fails with the
invalid-magnitude error on larger integers; and parsing depends only on
the trimmed input up to the raw input echoed in the invalid-format
message — `parse(s)` and `parse(trim(s))` return identical successful
values. -/
theorem parseExtendedDuration_spec (s : String) :
    (∀ d : Int, parseExtendedDuration s = Except.ok d ↔
      parseExtendedDuration (trimSpace s) = Except.ok d) ∧
    (durMatch (trimSpaceL s.data) = false →
      parseExtendedDuration s = Except.error ("invalid duration: " ++ s)) ∧
    (durMatch (trimSpaceL s.data) = true →
      digitsToNat (trimSpaceL s.data).dropLast ≤ int64Max →
      parseExtendedDuration s = Except.ok (wrap64
        ((digitsToNat (trimSpaceL s.data).dropLast : Int) *
          unitDuration ((trimSpaceL s.data).getLast?.getD 's')))) ∧
    (durMatch (trimSpaceL s.data) = true →
      int64Max < digitsToNat (trimSpaceL s.data).dropLast →
      parseExtendedDuration s =
        Except.error "invalid number in duration: value out of range") := by
  have hidem : trimSpaceL (trimSpace s).data = trimSpaceL s.data := by
    rw [trimSpace_data, trimSpaceL_idem]
  refine ⟨?_, ?_, ?_, ?_⟩
  · intro d
    rw [parseExtendedDuration_unfold s, parseExtendedDuration_unfold (trimSpace s),
      hidem]
    by_cases hm : durMatch (trimSpaceL s.data)
    · rw [if_pos hm, if_pos hm]
    · rw [if_neg hm, if_neg hm]
      constructor <;> intro h <;> exact absurd h (by simp)
  · intro hm
    rw [parseExtendedDuration_unfold s, if_neg (by simp [hm])]
  · intro hm hv
    rw [parseExtendedDuration_unfold s, if_pos hm, if_neg (not_lt.mpr hv)]
  · intro hm hv
    rw [parseExtendedDuration_unfold s, if_pos hm, if_pos hv]

/-- Claim C7, witness for the amended theorem at concrete inputs. -/
theorem parseExtendedDuration_spec_witness :
    (parseExtendedDuration "  2d " = Except.ok 172800000000000 ↔
      parseExtendedDuration (trimSpace "  2d ") = Except.ok 172800000000000) ∧
    parseExtendedDuration "1x" = Except.error ("invalid duration: " ++ "1x") ∧
    parseExtendedDuration "  2d " = Except.ok (wrap64
      ((digitsToNat (trimSpaceL ("  2d ").data).dropLast : Int) *
        unitDuration ((trimSpaceL ("  2d ").data).getLast?.getD 's'))) ∧
    parseExtendedDuration "9223372036854775808s" =
      Except.error "invalid number in duration: value out of range" := by
  refine ⟨(parseExtendedDuration_spec "  2d ").1 172800000000000, ?_, ?_, ?_⟩
  · exact (parseExtendedDuration_spec "1x").2.1 rfl
  · exact (parseExtendedDuration_spec "  2d ").2.2.1 rfl (by decide)
  · exact (parseExtendedDuration_spec "9223372036854775808s").2.2.2 rfl (by decide)

end Gitfamous
